import Mathlib

/-!
Verification of the cache-coordination logic of `query-server.js`.

The development shallowly embeds the JavaScript source:
* JavaScript JSON values are `JSValue` (numbers are modelled as integers,
  which covers every value the program serializes; floating point is outside
  the embedding).
* `JSON.stringify(v, null, 2)` and `JSON.parse` are modelled by executable
  functions `stringify2` / `jsonParse` over character lists, together with a
  proved round-trip theorem for the order entities the program stores.
* The file system is a `World` value holding the cache files plus
  fault-injection sets that let a read or a write at a given path fail, the
  way `fs.readFileSync` / `fs.writeFileSync` can throw.
* A JavaScript exception is an `Except` error; `getOrder` returns its result
  (or exception) together with the updated world and the trace of effects
  (origin fetch, cache write, NATS publish) it performed, in order.
-/

/-- A JavaScript JSON value.  Numbers are modelled as integers: every number
the program ever serializes (the `quantity` field) is an integer, and no
claim depends on fractional numbers. -/
inductive JSValue where
  | jnull
  | jbool (b : Bool)
  | jnum (n : Int)
  | jstr (s : String)
  | jarr (xs : List JSValue)
  | jobj (ms : List (String × JSValue))

/-! ### Character utilities -/

/-- JSON whitespace. -/
def wsChar (c : Char) : Bool := c = ' ' || c = '\n' || c = '\t' || c = '\x0d'

/-- Decimal digit characters. -/
def decChar (c : Char) : Bool := 48 ≤ c.toNat && c.toNat ≤ 57

/-- The character of a decimal digit. -/
def decOf (d : Nat) : Char := Char.ofNat (48 + d)

/-- Lowercase hexadecimal digit character, as emitted by `JSON.stringify`
for control-character escapes. -/
def hexOf (d : Nat) : Char := if d < 10 then Char.ofNat (48 + d) else Char.ofNat (87 + d)

/-- Value of a hexadecimal digit character, if it is one. -/
def hexNat (c : Char) : Option Nat :=
  if 48 ≤ c.toNat ∧ c.toNat ≤ 57 then some (c.toNat - 48)
  else if 97 ≤ c.toNat ∧ c.toNat ≤ 102 then some (c.toNat - 87)
  else if 65 ≤ c.toNat ∧ c.toNat ≤ 70 then some (c.toNat - 55)
  else none

/-- Drop leading JSON whitespace. -/
def dropWs : List Char → List Char
  | [] => []
  | c :: cs => if wsChar c then dropWs cs else c :: cs

/-- Decimal digits of `n`, most significant first; structural on a fuel
argument so that the kernel can evaluate it (`decDigitsGo (n+1) n` always has
enough fuel). -/
def decDigitsGo : Nat → Nat → List Char
  | 0, _ => []
  | f + 1, n => if n < 10 then [decOf n] else decDigitsGo f (n / 10) ++ [decOf (n % 10)]

/-- Decimal digits of a natural number, as `String(n)` prints them. -/
def decDigits (n : Nat) : List Char := decDigitsGo (n + 1) n

/-- The characters `String(i)` prints for an integer. -/
def intChars (i : Int) : List Char :=
  if i < 0 then '-' :: decDigits i.natAbs else decDigits i.natAbs

/-- JSON escape of one character, as `JSON.stringify` quotes strings: `"`,
`\`, and the named control characters get two-character escapes, every other
control character below U+0020 gets a `\u00xx` escape, and everything else is
emitted verbatim. -/
def escChar (c : Char) : List Char :=
  if c = '"' then ['\\', '"']
  else if c = '\\' then ['\\', '\\']
  else if c = '\x08' then ['\\', 'b']
  else if c = '\x0c' then ['\\', 'f']
  else if c = '\n' then ['\\', 'n']
  else if c = '\x0d' then ['\\', 'r']
  else if c = '\t' then ['\\', 't']
  else if c.toNat < 32 then ['\\', 'u', '0', '0', hexOf (c.toNat / 16), hexOf (c.toNat % 16)]
  else [c]

/-- JSON escape of a character sequence. -/
def escSeq : List Char → List Char
  | [] => []
  | c :: cs => escChar c ++ escSeq cs

/-- A quoted JSON string literal for `s`. -/
def strLit (s : String) : List Char := '"' :: (escSeq s.data ++ ['"'])

/-! ### `JSON.stringify`

`stringify2` is `JSON.stringify(v, null, 2)` (used for the cache files);
`stringify0` is plain `JSON.stringify(v)` (used for the NATS payload). -/

/-- The indentation in front of a member nested at depth `d + 1`. -/
def pad (d : Nat) : List Char := List.replicate (2 * (d + 1)) ' '

mutual
/-- `JSON.stringify(v, null, 2)` on a value nested at depth `d`. -/
def stringify2 (d : Nat) : JSValue → List Char
  | .jnull => "null".data
  | .jbool true => "true".data
  | .jbool false => "false".data
  | .jnum i => intChars i
  | .jstr s => strLit s
  | .jarr [] => "[]".data
  | .jarr (x :: xs) =>
    '[' :: '\n' :: (items2 d (x :: xs) ++ '\n' :: (List.replicate (2 * d) ' ' ++ [']']))
  | .jobj [] => "{}".data
  | .jobj (m :: ms) =>
    '{' :: '\n' :: (mems2 d (m :: ms) ++ '\n' :: (List.replicate (2 * d) ' ' ++ ['}']))

/-- The pretty-printed element list of an array at depth `d`, without the
surrounding brackets. -/
def items2 (d : Nat) : List JSValue → List Char
  | [] => []
  | [x] => pad d ++ stringify2 (d + 1) x
  | x :: y :: ys => pad d ++ stringify2 (d + 1) x ++ ',' :: '\n' :: items2 d (y :: ys)

/-- The pretty-printed member list of an object at depth `d`, without the
surrounding braces. -/
def mems2 (d : Nat) : List (String × JSValue) → List Char
  | [] => []
  | [(k, v)] => pad d ++ strLit k ++ ':' :: ' ' :: stringify2 (d + 1) v
  | (k, v) :: m :: ms =>
    pad d ++ strLit k ++ ':' :: ' ' :: stringify2 (d + 1) v ++ ',' :: '\n' :: mems2 d (m :: ms)
end

mutual
/-- Plain `JSON.stringify(v)`: the compact encoding, no whitespace. -/
def stringify0 : JSValue → List Char
  | .jnull => "null".data
  | .jbool true => "true".data
  | .jbool false => "false".data
  | .jnum i => intChars i
  | .jstr s => strLit s
  | .jarr xs => '[' :: (items0 xs ++ [']'])
  | .jobj ms => '{' :: (mems0 ms ++ ['}'])

/-- Compact element list, comma separated. -/
def items0 : List JSValue → List Char
  | [] => []
  | [x] => stringify0 x
  | x :: y :: ys => stringify0 x ++ ',' :: items0 (y :: ys)

/-- Compact member list, comma separated. -/
def mems0 : List (String × JSValue) → List Char
  | [] => []
  | [(k, v)] => strLit k ++ ':' :: stringify0 v
  | (k, v) :: m :: ms => strLit k ++ ':' :: stringify0 v ++ ',' :: mems0 (m :: ms)
end

/-! ### `JSON.parse` -/

/-- Parse the body of a string literal, after its opening quote, undoing the
escapes; returns the content and the characters after the closing quote. -/
def strBody : List Char → Option (List Char × List Char)
  | [] => none
  | c :: rest =>
    if c = '"' then some ([], rest)
    else if c = '\\' then
      match rest with
      | [] => none
      | e :: rest2 =>
        if e = 'u' then
          match rest2 with
          | a :: b :: x :: y :: rest3 =>
            match hexNat a, hexNat b, hexNat x, hexNat y with
            | some ha, some hb, some hx, some hy =>
              (strBody rest3).map fun p =>
                (Char.ofNat ((((ha * 16 + hb) * 16 + hx) * 16 + hy)) :: p.1, p.2)
            | _, _, _, _ => none
          | _ => none
        else
          match
            (if e = '"' then some '"'
             else if e = '\\' then some '\\'
             else if e = '/' then some '/'
             else if e = 'b' then some '\x08'
             else if e = 'f' then some '\x0c'
             else if e = 'n' then some '\n'
             else if e = 'r' then some '\x0d'
             else if e = 't' then some '\t'
             else none) with
          | some u => (strBody rest2).map fun p => (u :: p.1, p.2)
          | none => none
    else (strBody rest).map fun p => (c :: p.1, p.2)

/-- Split off the leading run of decimal digits. -/
def digitRun : List Char → List Char × List Char
  | [] => ([], [])
  | c :: cs =>
    if decChar c then
      let p := digitRun cs
      (c :: p.1, p.2)
    else ([], c :: cs)

/-- The value of a digit run. -/
def runVal (ds : List Char) : Nat := ds.foldl (fun a c => a * 10 + (c.toNat - 48)) 0

/-- Parse a JSON integer (optional minus sign, then digits). -/
def parseNum (cs : List Char) : Option (JSValue × List Char) :=
  match cs with
  | [] => none
  | c :: t =>
    if c = '-' then
      let p := digitRun t
      if p.1 = [] then none else some (.jnum (-(runVal p.1 : Int)), p.2)
    else
      let p := digitRun (c :: t)
      if p.1 = [] then none else some (.jnum ((runVal p.1 : Nat) : Int), p.2)

mutual
/-- Parse one JSON value; structural on the fuel so the kernel can run it. -/
def parseVal : Nat → List Char → Option (JSValue × List Char)
  | 0, _ => none
  | f + 1, cs =>
    match dropWs cs with
    | [] => none
    | c :: t =>
      if c = '"' then (strBody t).map fun p => (.jstr (String.mk p.1), p.2)
      else if c = '{' then
        match dropWs t with
        | [] => none
        | c2 :: t2 =>
          if c2 = '}' then some (.jobj [], t2)
          else (parseMems f (c2 :: t2)).map fun p => (.jobj p.1, p.2)
      else if c = '[' then
        match dropWs t with
        | [] => none
        | c2 :: t2 =>
          if c2 = ']' then some (.jarr [], t2)
          else (parseItems f (c2 :: t2)).map fun p => (.jarr p.1, p.2)
      else if c = 'n' then
        match t with
        | 'u' :: 'l' :: 'l' :: r => some (.jnull, r)
        | _ => none
      else if c = 't' then
        match t with
        | 'r' :: 'u' :: 'e' :: r => some (.jbool true, r)
        | _ => none
      else if c = 'f' then
        match t with
        | 'a' :: 'l' :: 's' :: 'e' :: r => some (.jbool false, r)
        | _ => none
      else parseNum (c :: t)

/-- Parse a nonempty member list of an object, up to and including the
closing brace. -/
def parseMems : Nat → List Char → Option (List (String × JSValue) × List Char)
  | 0, _ => none
  | f + 1, cs =>
    match cs with
    | [] => none
    | c :: t =>
      if c = '"' then
        match strBody t with
        | none => none
        | some (k, r1) =>
          match dropWs r1 with
          | [] => none
          | c2 :: r2 =>
            if c2 = ':' then
              match parseVal f r2 with
              | none => none
              | some (v, r3) =>
                match dropWs r3 with
                | [] => none
                | c3 :: r4 =>
                  if c3 = ',' then
                    (parseMems f (dropWs r4)).map fun p => ((String.mk k, v) :: p.1, p.2)
                  else if c3 = '}' then some ([(String.mk k, v)], r4)
                  else none
            else none
      else none

/-- Parse a nonempty element list of an array, up to and including the
closing bracket. -/
def parseItems : Nat → List Char → Option (List JSValue × List Char)
  | 0, _ => none
  | f + 1, cs =>
    match parseVal f cs with
    | none => none
    | some (v, r) =>
      match dropWs r with
      | [] => none
      | c :: r2 =>
        if c = ',' then (parseItems f (dropWs r2)).map fun p => (v :: p.1, p.2)
        else if c = ']' then some ([v], r2)
        else none
end

/-- `JSON.parse` on a character list: one value, then at most trailing
whitespace. -/
def parseChars (cs : List Char) : Option JSValue :=
  match parseVal (cs.length + 1) cs with
  | some (j, r) => if dropWs r = [] then some j else none
  | none => none

/-- `JSON.parse` on a string; `none` models the `SyntaxError` throw. -/
def jsonParse (s : String) : Option JSValue := parseChars s.data

example : jsonParse "false" = some (.jbool false) := rfl
example : jsonParse "null" = some .jnull := rfl
example : jsonParse "\x7b\"a\": -12\x7d" = some (.jobj [("a", .jnum (-12))]) := rfl
example : jsonParse "nonsense\x7b" = none := rfl
example : String.mk (stringify0 (.jobj [("a", .jnum 3), ("b", .jstr "x")]))
    = "\x7b\"a\":3,\"b\":\"x\"\x7d" := rfl
example : String.mk (stringify2 0 (.jobj [("a", .jnum 3)])) = "\x7b\n  \"a\": 3\n\x7d" := rfl

/-! ### The repository model

`query-server.js` keeps its cache in one file per key under
`/tmp/cache/orders`.  A `World` is the node-local state the program touches:
the cache files and two fault-injection sets that make an `fs` call at a
given path throw, the way a permission error would. -/

/-- A JavaScript exception as the resolver can see one: an `fs` I/O failure
or a `JSON.parse` syntax error. -/
inductive JsError where
  | ioFailure
  | syntaxError
deriving DecidableEq

/-- Node-local state: the cache directory contents plus which paths currently
fail to read or to write. -/
structure World where
  files : List (String × String)
  badReads : List String
  badWrites : List String

/-- The cache file path for a key: `path.join('/tmp/cache/orders', orderId + '.json')`. -/
def cachePath (orderId : String) : String := "/tmp/cache/orders/" ++ orderId ++ ".json"

/-- Store `contents` at `p`, replacing any previous file there. -/
def putFile (fs : List (String × String)) (p contents : String) : List (String × String) :=
  (p, contents) :: fs.filter fun q => ¬(q.1 = p)

/-- `writeOrderToFile(orderId, data)`: serialize with
`JSON.stringify(data, null, 2)` and write the cache file (`ensureCacheDir` is
the identity on the model, as the idempotent `mkdirSync`).  An injected write
fault makes `fs.writeFileSync` throw. -/
def writeOrderToFile (w : World) (orderId : String) (data : JSValue) : Except JsError World :=
  if cachePath orderId ∈ w.badWrites then .error .ioFailure
  else .ok { w with files := putFile w.files (cachePath orderId) (String.mk (stringify2 0 data)) }

/-- `readOrderFromFile(orderId)`: if the cache file does not exist the
function returns `null` (`.ok none`); otherwise it reads and `JSON.parse`s
it, and either the read (injected fault) or the parse can throw. -/
def readOrderFromFile (w : World) (orderId : String) : Except JsError (Option JSValue) :=
  match w.files.lookup (cachePath orderId) with
  | none => .ok none
  | some contents =>
    if cachePath orderId ∈ w.badReads then .error .ioFailure
    else
      match jsonParse contents with
      | some j => .ok (some j)
      | none => .error .syntaxError

/-- JavaScript truthiness of a JSON value: `null`, `false`, `0` and `""` are
falsy, everything else is truthy. -/
def truthy : JSValue → Bool
  | .jnull => false
  | .jbool b => b
  | .jnum n => !(n = 0)
  | .jstr s => !(s = "")
  | .jarr _ => true
  | .jobj _ => true

/-- Truthiness of what `readOrderFromFile` returned (`null` for a missing
file is falsy). -/
def cacheHit : Option JSValue → Bool
  | none => false
  | some j => truthy j

/-- The simulated database row the resolver builds on a miss
(`orderFromDB`). -/
def orderFromDB (orderId : String) : JSValue :=
  .jobj [("id", .jstr orderId), ("customer", .jstr "John Doe"),
         ("product", .jstr "Laptop"), ("quantity", .jnum 2),
         ("status", .jstr "shipped")]

/-- One observable side effect of a lookup, in program order: the simulated
database fetch, the cache-file write, or the NATS publish (with its subject
and its `sc.encode(JSON.stringify(...))` payload). -/
inductive Effect where
  | fetchOrigin (orderId : String)
  | writeFile (orderId : String)
  | publish (subject payload : String)
deriving DecidableEq

/-- The `getOrder` resolver.  Returns the GraphQL result (or the exception
that escaped), the world after the lookup, and the trace of effects in the
order the code performs them: on a cache hit there are none; on a miss the
fetch, then the durable write, then the publish on `cache.orders.<key>`. -/
def getOrder (w : World) (orderId : String) :
    Except JsError JSValue × World × List Effect :=
  match readOrderFromFile w orderId with
  | .error e => (.error e, w, [])
  | .ok cachedOrder =>
    if cacheHit cachedOrder then (.ok (cachedOrder.getD .jnull), w, [])
    else
      match writeOrderToFile w orderId (orderFromDB orderId) with
      | .error e => (.error e, w, [.fetchOrigin orderId])
      | .ok w2 =>
        (.ok (orderFromDB orderId), w2,
         [.fetchOrigin orderId, .writeFile orderId,
          .publish ("cache.orders." ++ orderId) (String.mk (stringify0 (orderFromDB orderId)))])

/-! ### The NATS subscription path -/

/-- One delivery handed to the subscription callback: either a per-message
delivery error (`err` non-null) or a message with its subject and decoded
payload (`StringCodec` decoding is the identity on the model). -/
inductive Delivery where
  | err (description : String)
  | msg (subject payload : String)

/-- `String.split('.')` of JavaScript on a character list: every dot ends a
segment, and empty segments are kept. -/
def splitDots : List Char → List (List Char)
  | [] => [[]]
  | c :: cs =>
    if c = '.' then [] :: splitDots cs
    else
      match splitDots cs with
      | [] => [[c]]
      | s :: ss => (c :: s) :: ss

/-- `msg.subject.split('.')[2]`: the third dot-separated segment of the
subject.  When the subject has fewer than three segments the JavaScript index
is `undefined` and the template literal renders it as the string
`"undefined"`. -/
def subjectKey (subject : String) : String :=
  match (splitDots subject.data).get? 2 with
  | some seg => String.mk seg
  | none => "undefined"

/-- The body of the subscription callback for a message delivery: decode,
take the key from the subject, `JSON.parse` the payload (which can throw), and
write the order to the local disk. -/
def onMessage (w : World) (subject payload : String) : Except JsError World :=
  match jsonParse payload with
  | none => .error .syntaxError
  | some j => writeOrderToFile w (subjectKey subject) j

/-- The whole callback: a delivery error is logged and dropped; a message is
handled by `onMessage`. -/
def natsCallback (w : World) : Delivery → Except JsError World
  | .err _ => .ok w
  | .msg subject payload => onMessage w subject payload

/-- Modelled from the spec: the delivery loop of the Bus Client lives in the
`nats` client library, not under `src/`; §4.2 requires that a per-message
handler error is logged, the message dropped, and the loop kept alive, so the
loop applies `natsCallback` to each delivery in order and contains any
exception by leaving the world unchanged for that message. -/
def runDeliveries (w : World) : List Delivery → World
  | [] => w
  | d :: ds =>
    runDeliveries (match natsCallback w d with | .ok w2 => w2 | .error _ => w) ds

/-- A valid order entity: the five domain fields of the GraphQL `Order`
type.  The field names and their order match the object literal in the
resolver. -/
structure OrderEnt where
  id : String
  customer : String
  product : String
  quantity : Int
  status : String

/-- The JSON object carrying an order entity. -/
def OrderEnt.toJS (e : OrderEnt) : JSValue :=
  .jobj [("id", .jstr e.id), ("customer", .jstr e.customer),
         ("product", .jstr e.product), ("quantity", .jnum e.quantity),
         ("status", .jstr e.status)]

example : orderFromDB "42" = (OrderEnt.mk "42" "John Doe" "Laptop" 2 "shipped").toJS := rfl

/-- The tail after a digit run must not itself start with a digit. -/
def noDigitHead : List Char → Bool
  | [] => true
  | c :: _ => !decChar c

/-- The leading segment of a character list up to (excluding) the first dot:
what `split('.')[0]` returns. -/
def headSeg : List Char → List Char
  | [] => []
  | c :: cs => if c = '.' then [] else c :: headSeg cs

/-- A node with an empty cache and no injected faults. -/
def emptyWorld : World := ⟨[], [], []⟩

/-! ### Round-trip: numbers -/

theorem decDigitsGo_irrel : ∀ n f g, n < f → n < g → decDigitsGo f n = decDigitsGo g n := by
  intro n
  induction n using Nat.strongRecOn with
  | _ n ih =>
    intro f g hf hg
    match f, g with
    | f' + 1, g' + 1 =>
      by_cases h10 : n < 10
      · simp [decDigitsGo, h10]
      · have hrec := ih (n / 10) (by omega) f' g' (by omega) (by omega)
        simp [decDigitsGo, h10, hrec]

theorem decDigits_step (n : Nat) :
    decDigits n = (if n < 10 then [] else decDigits (n / 10)) ++ [decOf (n % 10)] := by
  by_cases h10 : n < 10
  · simp [decDigits, decDigitsGo, h10, Nat.mod_eq_of_lt h10]
  · have hirrel : decDigitsGo n (n / 10) = decDigitsGo (n / 10 + 1) (n / 10) :=
      decDigitsGo_irrel (n / 10) n (n / 10 + 1) (by omega) (by omega)
    simp [decDigits, decDigitsGo, h10, hirrel]

theorem decOf_toNat (d : Nat) (h : d < 10) : (decOf d).toNat = 48 + d := by
  interval_cases d <;> decide

theorem decChar_decOf (d : Nat) (h : d < 10) : decChar (decOf d) = true := by
  interval_cases d <;> decide

theorem decDigits_dec (n : Nat) : ∀ c ∈ decDigits n, decChar c = true := by
  induction n using Nat.strongRecOn with
  | _ n ih =>
    rw [decDigits_step]
    intro c hc
    rcases List.mem_append.mp hc with h | h
    · by_cases h10 : n < 10
      · simp [h10] at h
      · exact ih (n / 10) (by omega) c (by simpa [h10] using h)
    · rcases List.mem_singleton.mp h with rfl
      exact decChar_decOf _ (Nat.mod_lt _ (by omega))

theorem decDigits_ne_nil (n : Nat) : decDigits n ≠ [] := by
  rw [decDigits_step]; simp

theorem runVal_decDigits (n : Nat) : runVal (decDigits n) = n := by
  induction n using Nat.strongRecOn with
  | _ n ih =>
    rw [decDigits_step]
    by_cases h10 : n < 10
    · simp only [h10, if_true, List.nil_append, runVal, List.foldl_cons, List.foldl_nil,
        decOf_toNat _ (Nat.mod_lt _ (by omega))]
      omega
    · have hv := ih (n / 10) (by omega)
      simp only [h10, if_false, runVal, List.foldl_append, List.foldl_cons, List.foldl_nil]
      rw [runVal] at hv
      rw [hv, decOf_toNat _ (Nat.mod_lt _ (by omega))]
      omega

theorem digitRun_stop {cs : List Char} (h : noDigitHead cs = true) :
    digitRun cs = ([], cs) := by
  match cs with
  | [] => rfl
  | c :: t =>
    simp only [noDigitHead, Bool.not_eq_true'] at h
    simp [digitRun, h]

theorem digitRun_run (ds : List Char) (hds : ∀ c ∈ ds, decChar c = true)
    (rest : List Char) (hrest : noDigitHead rest = true) :
    digitRun (ds ++ rest) = (ds, rest) := by
  induction ds with
  | nil => simpa using digitRun_stop hrest
  | cons c t ih =>
    have hc := hds c (by simp)
    have ht := ih fun x hx => hds x (by simp [hx])
    simp [digitRun, hc, ht]

theorem decDigits_cons (n : Nat) :
    ∃ c t, decDigits n = c :: t ∧ decChar c = true := by
  match h : decDigits n with
  | [] => exact absurd h (decDigits_ne_nil n)
  | c :: t => exact ⟨c, t, rfl, decDigits_dec n c (h ▸ List.mem_cons_self ..)⟩

theorem decChar_toNat {c : Char} (h : decChar c = true) :
    48 ≤ c.toNat ∧ c.toNat ≤ 57 := by
  simpa [decChar] using h

theorem parseNum_intChars (q : Int) (rest : List Char) (h : noDigitHead rest = true) :
    parseNum (intChars q ++ rest) = some (.jnum q, rest) := by
  have hrun : digitRun (decDigits q.natAbs ++ rest) = (decDigits q.natAbs, rest) :=
    digitRun_run _ (decDigits_dec _) _ h
  have hval : runVal (decDigits q.natAbs) = q.natAbs := runVal_decDigits q.natAbs
  have hnil : ¬(decDigits q.natAbs = []) := decDigits_ne_nil q.natAbs
  by_cases hq : q < 0
  · have harg : intChars q ++ rest = '-' :: (decDigits q.natAbs ++ rest) := by
      simp [intChars, hq]
    have hneg : (-(q.natAbs : Int)) = q := by omega
    rw [harg]
    simp only [parseNum, if_pos rfl, hrun, hval, hnil, if_false, if_true, hneg]
  · obtain ⟨c, t, hct, hc⟩ := decDigits_cons q.natAbs
    have hne : ¬(c = '-') := by
      rintro rfl
      exact absurd hc (by decide)
    have harg : intChars q ++ rest = c :: (t ++ rest) := by
      simp [intChars, hq, hct]
    have hrun' : digitRun (c :: (t ++ rest)) = (decDigits q.natAbs, rest) := by
      rw [show c :: (t ++ rest) = (c :: t) ++ rest from rfl, ← hct]
      exact hrun
    have hpos : ((q.natAbs : Nat) : Int) = q := by omega
    rw [harg]
    simp only [parseNum, if_neg hne, hrun', hval, hnil, if_false, hpos]

/-! ### Round-trip: strings -/

theorem hexNat_hexOf (d : Nat) (h : d < 16) : hexNat (hexOf d) = some d := by
  interval_cases d <;> decide

theorem strBody_escSeq : ∀ (cs rest : List Char),
    strBody (escSeq cs ++ '"' :: rest) = some (cs, rest) := by
  intro cs
  induction cs with
  | nil =>
    intro rest
    rw [show escSeq [] ++ '"' :: rest = '"' :: rest from rfl, strBody.eq_def]
    simp
  | cons c cs ih =>
    intro rest
    rw [show escSeq (c :: cs) = escChar c ++ escSeq cs from rfl, List.append_assoc]
    rw [escChar]
    split_ifs with h1 h2 h3 h4 h5 h6 h7 h8
    · subst h1
      rw [List.cons_append, List.cons_append, List.nil_append, strBody.eq_def]
      simp [ih rest]
    · subst h2
      rw [List.cons_append, List.cons_append, List.nil_append, strBody.eq_def]
      simp [ih rest]
    · subst h3
      rw [List.cons_append, List.cons_append, List.nil_append, strBody.eq_def]
      simp [ih rest]
    · subst h4
      rw [List.cons_append, List.cons_append, List.nil_append, strBody.eq_def]
      simp [ih rest]
    · subst h5
      rw [List.cons_append, List.cons_append, List.nil_append, strBody.eq_def]
      simp [ih rest]
    · subst h6
      rw [List.cons_append, List.cons_append, List.nil_append, strBody.eq_def]
      simp [ih rest]
    · subst h7
      rw [List.cons_append, List.cons_append, List.nil_append, strBody.eq_def]
      simp [ih rest]
    · have hdiv : c.toNat / 16 < 16 := by omega
      have hmod : c.toNat % 16 < 16 := by omega
      rw [List.cons_append, List.cons_append, List.cons_append, List.cons_append,
        List.cons_append, List.cons_append, List.nil_append, strBody.eq_def]
      simp only [show hexNat '0' = some 0 from rfl, hexNat_hexOf _ hdiv, hexNat_hexOf _ hmod]
      simp [ih rest]
      rw [show c.toNat / 16 * 16 + c.toNat % 16 = c.toNat from by omega, Char.ofNat_toNat]
    · rw [List.cons_append, List.nil_append, strBody.eq_def]
      simp [h1, h2, ih rest]

/-! ### Round-trip: scalar values inside `parseVal` -/

theorem dropWs_not (c : Char) (h : wsChar c = false) (cs : List Char) :
    dropWs (c :: cs) = c :: cs := by
  simp [dropWs, h]

theorem strLit_append (s : String) (rest : List Char) :
    strLit s ++ rest = '"' :: (escSeq s.data ++ '"' :: rest) := by
  simp [strLit]

theorem parseVal_strLit (f : Nat) (s : String) (rest : List Char) :
    parseVal (f + 1) ('"' :: (escSeq s.data ++ '"' :: rest)) = some (.jstr s, rest) := by
  simp [parseVal, dropWs_not '"' (by decide), strBody_escSeq]

theorem parseVal_headNum (f : Nat) (c : Char) (t : List Char)
    (hd : decChar c = true ∨ c = '-') :
    parseVal (f + 1) (c :: t) = parseNum (c :: t) := by
  have hp : wsChar c = false ∧ ¬(c = '"') ∧ ¬(c = '{') ∧ ¬(c = '[') ∧ ¬(c = 'n') ∧
      ¬(c = 't') ∧ ¬(c = 'f') := by
    rcases hd with h | rfl
    · refine ⟨?_, ?_, ?_, ?_, ?_, ?_, ?_⟩
      · simp only [wsChar, Bool.or_eq_false_iff, decide_eq_false_iff_not]
        refine ⟨⟨⟨?_, ?_⟩, ?_⟩, ?_⟩ <;> (rintro rfl; exact absurd h (by decide))
      all_goals (rintro rfl; exact absurd h (by decide))
    · exact ⟨by decide, by decide, by decide, by decide, by decide, by decide, by decide⟩
  obtain ⟨hws, hq, hb, hk, hn, ht, hf⟩ := hp
  simp only [parseVal, dropWs_not c hws, if_neg hq, if_neg hb, if_neg hk, if_neg hn,
    if_neg ht, if_neg hf]

theorem parseVal_intChars (f : Nat) (q : Int) (rest : List Char)
    (h : noDigitHead rest = true) :
    parseVal (f + 1) (intChars q ++ rest) = some (.jnum q, rest) := by
  by_cases hq : q < 0
  · have harg : intChars q ++ rest = '-' :: (decDigits q.natAbs ++ rest) := by
      simp [intChars, hq]
    rw [harg, parseVal_headNum f '-' _ (Or.inr rfl), ← harg]
    exact parseNum_intChars q rest h
  · obtain ⟨c, t, hct, hc⟩ := decDigits_cons q.natAbs
    have harg : intChars q ++ rest = c :: (t ++ rest) := by
      simp [intChars, hq, hct]
    rw [harg, parseVal_headNum f c _ (Or.inl hc), ← harg]
    exact parseNum_intChars q rest h

theorem dropWs_ws (c : Char) (h : wsChar c = true) (cs : List Char) :
    dropWs (c :: cs) = dropWs cs := by
  simp [dropWs, h]

theorem parseVal_strBody (f : Nat) (sd rest : List Char) :
    parseVal (f + 1) ('"' :: (escSeq sd ++ '"' :: rest)) = some (.jstr (String.mk sd), rest) := by
  simp [parseVal, dropWs_not '"' (by decide), strBody_escSeq]

theorem parseVal_spStr (f : Nat) (sd rest : List Char) :
    parseVal (f + 1) (' ' :: '"' :: (escSeq sd ++ '"' :: rest))
      = some (.jstr (String.mk sd), rest) := by
  have h : dropWs (' ' :: '"' :: (escSeq sd ++ '"' :: rest))
      = '"' :: (escSeq sd ++ '"' :: rest) := by
    rw [dropWs_ws ' ' (by decide), dropWs_not '"' (by decide)]
  simp [parseVal, h, strBody_escSeq]

theorem parseVal_sameWs (f : Nat) (cs1 cs2 : List Char) (h : dropWs cs1 = dropWs cs2) :
    parseVal (f + 1) cs1 = parseVal (f + 1) cs2 := by
  simp only [parseVal]
  rw [h]

theorem parseVal_spInt (f : Nat) (q : Int) (rest : List Char) (h : noDigitHead rest = true) :
    parseVal (f + 1) (' ' :: (intChars q ++ rest)) = some (.jnum q, rest) := by
  rw [parseVal_sameWs f _ (intChars q ++ rest) (dropWs_ws ' ' (by decide) _)]
  exact parseVal_intChars f q rest h

theorem parseMems_strMem (f : Nat) (kd sd tail : List Char) :
    parseMems (f + 2) ('"' :: (escSeq kd ++ '"' :: ':' :: ' ' :: '"' ::
        (escSeq sd ++ '"' :: ',' :: '\n' :: ' ' :: ' ' :: tail)))
      = (parseMems (f + 1) (dropWs tail)).map
          fun p => ((String.mk kd, .jstr (String.mk sd)) :: p.1, p.2) := by
  simp [parseMems, strBody_escSeq, dropWs_not ':' (by decide), parseVal_spStr,
    dropWs_not ',' (by decide), dropWs_ws '\n' (by decide), dropWs_ws ' ' (by decide)]

theorem parseMems_numMem (f : Nat) (kd : List Char) (q : Int) (tail : List Char) :
    parseMems (f + 2) ('"' :: (escSeq kd ++ '"' :: ':' :: ' ' ::
        (intChars q ++ ',' :: '\n' :: ' ' :: ' ' :: tail)))
      = (parseMems (f + 1) (dropWs tail)).map
          fun p => ((String.mk kd, .jnum q) :: p.1, p.2) := by
  have hv : parseVal (f + 1) (' ' :: (intChars q ++ ',' :: '\n' :: ' ' :: ' ' :: tail))
      = some (.jnum q, ',' :: '\n' :: ' ' :: ' ' :: tail) := parseVal_spInt f q _ rfl
  simp [parseMems, strBody_escSeq, dropWs_not ':' (by decide), hv,
    dropWs_not ',' (by decide), dropWs_ws '\n' (by decide), dropWs_ws ' ' (by decide)]

theorem parseMems_strLast (f : Nat) (kd sd rest : List Char) :
    parseMems (f + 2) ('"' :: (escSeq kd ++ '"' :: ':' :: ' ' :: '"' ::
        (escSeq sd ++ '"' :: '\n' :: '}' :: rest)))
      = some ([(String.mk kd, .jstr (String.mk sd))], rest) := by
  have hv : parseVal (f + 1) (' ' :: '"' :: (escSeq sd ++ '"' :: '\n' :: '}' :: rest))
      = some (.jstr (String.mk sd), '\n' :: '}' :: rest) := parseVal_spStr f sd _
  simp [parseMems, strBody_escSeq, dropWs_not ':' (by decide), hv,
    dropWs_ws '\n' (by decide), dropWs_not '}' (by decide)]

theorem parseVal_objOpen (f : Nat) (cs : List Char) :
    parseVal (f + 1) ('{' :: '\n' :: ' ' :: ' ' :: '"' :: cs)
      = (parseMems f ('"' :: cs)).map fun p => (.jobj p.1, p.2) := by
  simp [parseVal, dropWs_not '{' (by decide), dropWs_ws '\n' (by decide),
    dropWs_ws ' ' (by decide), dropWs_not '"' (by decide)]

theorem parseVal_stringify2_order (f : Nat) (e : OrderEnt) (rest : List Char) :
    parseVal (f + 7) (stringify2 0 e.toJS ++ rest) = some (e.toJS, rest) := by
  simp only [OrderEnt.toJS, stringify2, mems2, pad, strLit, List.replicate,
    List.cons_append, List.nil_append, List.append_assoc]
  simp only [parseVal_objOpen]
  simp only [parseMems_strMem, parseMems_numMem, parseMems_strLast,
    dropWs_not '"' (by decide)]
  simp

/-! ### The top-level round-trip for order entities -/

theorem jsonParse_stringify2_order (e : OrderEnt) :
    jsonParse (String.mk (stringify2 0 e.toJS)) = some e.toJS := by
  have hlen : 6 ≤ (stringify2 0 e.toJS).length := by
    simp only [OrderEnt.toJS, stringify2, mems2, pad, strLit, List.replicate,
      List.cons_append, List.nil_append, List.append_assoc, List.length_cons,
      List.length_append]
    omega
  obtain ⟨f, hf⟩ : ∃ f, (stringify2 0 e.toJS).length + 1 = f + 7 :=
    ⟨(stringify2 0 e.toJS).length - 6, by omega⟩
  have hp : parseVal ((stringify2 0 e.toJS).length + 1) (stringify2 0 e.toJS)
      = some (e.toJS, []) := by
    rw [hf]
    have := parseVal_stringify2_order f e []
    rwa [List.append_nil] at this
  show parseChars (stringify2 0 e.toJS) = some e.toJS
  simp only [parseChars, hp]
  simp [dropWs]

/-! ### Store lemmas -/

theorem lookup_putFile_self (fs : List (String × String)) (p v : String) :
    (putFile fs p v).lookup p = some v := by
  simp [putFile, List.lookup]

theorem readOrderFromFile_write (w : World) (k : String) (e : OrderEnt)
    (hr : cachePath k ∉ w.badReads) :
    readOrderFromFile
        { w with files := putFile w.files (cachePath k) (String.mk (stringify2 0 e.toJS)) } k
      = .ok (some e.toJS) := by
  simp only [readOrderFromFile, lookup_putFile_self]
  rw [if_neg hr, jsonParse_stringify2_order]

/-! ### Subject splitting lemmas -/

theorem splitDots_shape : ∀ cs : List Char, ∃ ss, splitDots cs = headSeg cs :: ss := by
  intro cs
  induction cs with
  | nil => exact ⟨[], rfl⟩
  | cons c cs ih =>
    obtain ⟨ss, hss⟩ := ih
    by_cases hc : c = '.'
    · exact ⟨splitDots cs, by simp [splitDots, headSeg, hc]⟩
    · exact ⟨ss, by simp [splitDots, headSeg, hc, hss]⟩

theorem splitDots_append_dot : ∀ (pre : List Char), (∀ c ∈ pre, ¬(c = '.')) →
    ∀ X : List Char, splitDots (pre ++ '.' :: X) = pre :: splitDots X := by
  intro pre
  induction pre with
  | nil => intro _ X; simp [splitDots]
  | cons c pre ih =>
    intro hpre X
    have hc : ¬(c = '.') := hpre c (by simp)
    have := ih (fun x hx => hpre x (by simp [hx])) X
    simp [splitDots, hc, this]

theorem subjectKey_eq_headSeg (k : String) :
    subjectKey ("cache.orders." ++ k) = String.mk (headSeg k.data) := by
  have hdata : ("cache.orders." ++ k).data
      = "cache".data ++ '.' :: ("orders".data ++ '.' :: k.data) := by
    rw [String.data_append]
    rfl
  have h1 : splitDots (("cache.orders." ++ k).data)
      = "cache".data :: "orders".data :: splitDots k.data := by
    rw [hdata, splitDots_append_dot "cache".data (by decide),
      splitDots_append_dot "orders".data (by decide)]
  obtain ⟨ss, hss⟩ := splitDots_shape k.data
  simp only [subjectKey]
  rw [h1, hss]
  rfl

theorem headSeg_eq_self_iff : ∀ cs : List Char, headSeg cs = cs ↔ ∀ c ∈ cs, ¬(c = '.') := by
  intro cs
  induction cs with
  | nil => simp [headSeg]
  | cons c cs ih =>
    by_cases hc : c = '.'
    · subst hc
      constructor
      · intro h
        exact absurd (congrArg List.length h) (by simp [headSeg])
      · intro h
        exact absurd rfl (h '.' (by simp))
    · simp [headSeg, hc, ih]

theorem headSeg_prefix : ∀ (a : List Char), (∀ c ∈ a, ¬(c = '.')) →
    ∀ b : List Char, headSeg (a ++ '.' :: b) = a := by
  intro a
  induction a with
  | nil => intro _ b; simp [headSeg]
  | cons c a ih =>
    intro ha b
    have hc : ¬(c = '.') := ha c (by simp)
    simp [headSeg, hc, ih (fun x hx => ha x (by simp [hx])) b]

theorem subjectKey_dotfree (k : String) (hk : ¬('.' ∈ k.data)) :
    subjectKey ("cache.orders." ++ k) = k := by
  rw [subjectKey_eq_headSeg,
    (headSeg_eq_self_iff k.data).mpr (fun c hc hdot => hk (hdot ▸ hc))]

theorem runDeliveries_append (w : World) (ds1 ds2 : List Delivery) :
    runDeliveries w (ds1 ++ ds2) = runDeliveries (runDeliveries w ds1) ds2 := by
  induction ds1 generalizing w with
  | nil => rfl
  | cons d ds ih => simp [runDeliveries, ih]

/-! ### The four paths through `getOrder` -/

theorem getOrder_hit (w : World) (k : String) (j : JSValue)
    (hread : readOrderFromFile w k = .ok (some j)) (ht : truthy j = true) :
    getOrder w k = (.ok j, w, []) := by
  simp only [getOrder, hread]
  simp [cacheHit, ht]

theorem getOrder_miss (w : World) (k : String) (c : Option JSValue)
    (hread : readOrderFromFile w k = .ok c) (hmiss : cacheHit c = false)
    (hw : cachePath k ∉ w.badWrites) :
    getOrder w k = (.ok (orderFromDB k),
      { w with
          files := putFile w.files (cachePath k) (String.mk (stringify2 0 (orderFromDB k))) },
      [.fetchOrigin k, .writeFile k,
       .publish ("cache.orders." ++ k) (String.mk (stringify0 (orderFromDB k)))]) := by
  simp only [getOrder, hread, hmiss]
  simp [writeOrderToFile, hw]

theorem getOrder_writeFail (w : World) (k : String) (c : Option JSValue)
    (hread : readOrderFromFile w k = .ok c) (hmiss : cacheHit c = false)
    (hbad : cachePath k ∈ w.badWrites) :
    getOrder w k = (.error .ioFailure, w, [.fetchOrigin k]) := by
  simp only [getOrder, hread, hmiss]
  simp [writeOrderToFile, hbad]

theorem getOrder_readError (w : World) (k : String) (err : JsError)
    (hread : readOrderFromFile w k = .error err) :
    getOrder w k = (.error err, w, []) := by
  simp only [getOrder, hread]

/-! ### The claims -/

/-- C1: on a cache miss (and with a working file system at that path, since a
faulted write fails the lookup fatally instead), the lookup's effect trace is
fetch, then the durable cache write, then the publish on `cache.orders.K`:
every write event strictly precedes every publish event in the trace, and a
`readOrderFromFile K` issued after the publish step returns the newly fetched
value and never reports a miss on the same node (a repeated `getOrder K` is a
pure hit with the same value). -/
theorem claim_persist_before_publish (w : World) (k : String) (c : Option JSValue)
    (hread : readOrderFromFile w k = .ok c) (hmiss : cacheHit c = false)
    (hw : cachePath k ∉ w.badWrites) (hr : cachePath k ∉ w.badReads) :
    ∃ w2, getOrder w k = (.ok (orderFromDB k), w2,
        [.fetchOrigin k, .writeFile k,
         .publish ("cache.orders." ++ k) (String.mk (stringify0 (orderFromDB k)))]) ∧
      (∀ i j s p, (getOrder w k).2.2.get? i = some (Effect.writeFile k) →
        (getOrder w k).2.2.get? j = some (Effect.publish s p) → i < j) ∧
      readOrderFromFile w2 k = .ok (some (orderFromDB k)) ∧
      getOrder w2 k = (.ok (orderFromDB k), w2, []) := by
  have hmain := getOrder_miss w k c hread hmiss hw
  refine ⟨_, hmain, ?_, ?_, ?_⟩
  · intro i j s p hi hj
    rw [hmain] at hi hj
    match i, hi with
    | 0, hi => exact absurd hi (by simp)
    | 2, hi => exact absurd hi (by simp)
    | n + 3, hi => exact absurd hi (by simp [List.get?])
    | 1, _ =>
      match j, hj with
      | 0, hj => exact absurd hj (by simp)
      | 1, hj => exact absurd hj (by simp)
      | n + 3, hj => exact absurd hj (by simp [List.get?])
      | 2, _ => omega
  · exact readOrderFromFile_write w k ⟨k, "John Doe", "Laptop", 2, "shipped"⟩ hr
  · exact getOrder_hit _ k (orderFromDB k)
      (readOrderFromFile_write w k ⟨k, "John Doe", "Laptop", 2, "shipped"⟩ hr) rfl

/-- C1 witness: the miss path on an empty node for key `"42"`. -/
theorem claim_persist_before_publish_witness :
    ∃ w2, getOrder emptyWorld "42" = (.ok (orderFromDB "42"), w2,
        [.fetchOrigin "42", .writeFile "42",
         .publish ("cache.orders." ++ "42") (String.mk (stringify0 (orderFromDB "42")))]) ∧
      readOrderFromFile w2 "42" = .ok (some (orderFromDB "42")) := by
  obtain ⟨w2, h1, _, h3, _⟩ :=
    claim_persist_before_publish emptyWorld "42" none rfl rfl (by decide) (by decide)
  exact ⟨w2, h1, h3⟩

/-- C2 counterexample: a node whose store holds the value `false` for key
`"9"` (`readOrderFromFile` returns it, so the Local Store does hold a value),
yet `getOrder "9"` does not return that stored value — it runs the whole miss
path, with fetch, write and publish side effects. -/
theorem claim_cache_precedence_cex :
    readOrderFromFile ⟨[(cachePath "9", "false")], [], []⟩ "9" = .ok (some (.jbool false)) ∧
    getOrder ⟨[(cachePath "9", "false")], [], []⟩ "9"
      = (.ok (orderFromDB "9"),
         ⟨[(cachePath "9", String.mk (stringify2 0 (orderFromDB "9")))], [], []⟩,
         [.fetchOrigin "9", .writeFile "9",
          .publish ("cache.orders." ++ "9") (String.mk (stringify0 (orderFromDB "9")))]) ∧
    (getOrder ⟨[(cachePath "9", "false")], [], []⟩ "9").2.2 ≠ [] := by
  refine ⟨rfl, rfl, by decide⟩

/-- C2 (amended): for every key `K` for which the Local Store holds a truthy
value (one JavaScript does not coerce to `false`; a stored `false`, `0`, `""`
or `null` is treated as a miss, see the counterexample), `getOrder K` returns
that stored value and performs no side effects beyond the read: no origin
fetch, no store write, and no publish happen in that lookup, and the world is
unchanged. -/
theorem claim_cache_precedence (w : World) (k : String) (j : JSValue)
    (hread : readOrderFromFile w k = .ok (some j)) (ht : truthy j = true) :
    getOrder w k = (.ok j, w, []) :=
  getOrder_hit w k j hread ht

/-- C2 witness: a stored truthy value for key `"5"` is returned as a pure
hit. -/
theorem claim_cache_precedence_witness :
    getOrder ⟨[(cachePath "5", "true")], [], []⟩ "5"
      = (.ok (.jbool true), ⟨[(cachePath "5", "true")], [], []⟩, []) :=
  claim_cache_precedence ⟨[(cachePath "5", "true")], [], []⟩ "5" (.jbool true) rfl rfl

/-- C3: for every key `K` and every valid entity `E` (an order with `id`,
`customer`, `product`, `quantity`, `status` fields, the string fields
arbitrary and the quantity an arbitrary integer), `writeOrderToFile(K, E)`
followed by `readOrderFromFile(K)` returns a value equal to `E` in every
field — numeric and string fields round-trip exactly through the
serialization (stated with the file system healthy at that path, since a
faulted `fs` call throws instead of returning). -/
theorem claim_write_read_roundtrip (w : World) (k : String) (e : OrderEnt)
    (hw : cachePath k ∉ w.badWrites) (hr : cachePath k ∉ w.badReads) :
    ∃ w2, writeOrderToFile w k e.toJS = .ok w2 ∧
      readOrderFromFile w2 k
        = .ok (some (.jobj [("id", .jstr e.id), ("customer", .jstr e.customer),
            ("product", .jstr e.product), ("quantity", .jnum e.quantity),
            ("status", .jstr e.status)])) := by
  refine ⟨_, ?_, readOrderFromFile_write w k e hr⟩
  simp only [writeOrderToFile, if_neg hw]

/-- C3 witness: a concrete entity whose fields exercise quote, backslash,
newline escapes and a negative quantity, on key `"w7"`. -/
theorem claim_write_read_roundtrip_witness :
    ∃ w2, writeOrderToFile emptyWorld "w7"
        (OrderEnt.mk "a\"x" "John\nDoe" "L\\p" (-12) "já").toJS = .ok w2 ∧
      readOrderFromFile w2 "w7"
        = .ok (some (.jobj [("id", .jstr "a\"x"), ("customer", .jstr "John\nDoe"),
            ("product", .jstr "L\\p"), ("quantity", .jnum (-12)),
            ("status", .jstr "já")])) :=
  claim_write_read_roundtrip emptyWorld "w7" ⟨"a\"x", "John\nDoe", "L\\p", -12, "já"⟩
    (by decide) (by decide)

/-- C4 counterexample: the bus subscription handler stores the value `false`
for key `"9"` (delivered on `cache.orders.9` with payload `"false"`); the
value is then present in the Local Store, yet the subsequent `getOrder "9"`
is not a pure hit — it invokes the Origin Fetcher again (non-empty effect
trace). -/
theorem claim_known_key_stable_cex :
    (runDeliveries emptyWorld [.msg "cache.orders.9" "false"]).files.lookup (cachePath "9")
      = some "false" ∧
    readOrderFromFile (runDeliveries emptyWorld [.msg "cache.orders.9" "false"]) "9"
      = .ok (some (.jbool false)) ∧
    (getOrder (runDeliveries emptyWorld [.msg "cache.orders.9" "false"]) "9").2.2 ≠ [] := by
  refine ⟨rfl, rfl, by decide⟩

/-- C4 (amended): once a truthy value for `K` is in the Local Store (a prior
lookup always stores the truthy entity object; the bus handler can store any
JSON value, and a falsy one is re-fetched, see the counterexample), every
subsequent `getOrder K` on that node returns that stored value with no
further effects and leaves the world unchanged — so the property persists
forever.  Scenario A holds concretely: `getOrder "42"` on an empty store
invokes the Origin Fetcher exactly once (one fetch in the trace), returns
the fully populated entity with id `"42"`, and the repeated `getOrder "42"`
returns the same entity with an empty effect trace. -/
theorem claim_known_key_stable (w : World) (k : String) (j : JSValue)
    (hread : readOrderFromFile w k = .ok (some j)) (ht : truthy j = true) :
    getOrder w k = (.ok j, w, []) ∧
    (getOrder emptyWorld "42"
        = (.ok (.jobj [("id", .jstr "42"), ("customer", .jstr "John Doe"),
            ("product", .jstr "Laptop"), ("quantity", .jnum 2), ("status", .jstr "shipped")]),
           ⟨[(cachePath "42", String.mk (stringify2 0 (orderFromDB "42")))], [], []⟩,
           [.fetchOrigin "42", .writeFile "42",
            .publish ("cache.orders." ++ "42") (String.mk (stringify0 (orderFromDB "42")))]) ∧
      getOrder ⟨[(cachePath "42", String.mk (stringify2 0 (orderFromDB "42")))], [], []⟩ "42"
        = (.ok (.jobj [("id", .jstr "42"), ("customer", .jstr "John Doe"),
            ("product", .jstr "Laptop"), ("quantity", .jnum 2), ("status", .jstr "shipped")]),
           ⟨[(cachePath "42", String.mk (stringify2 0 (orderFromDB "42")))], [], []⟩, [])) := by
  refine ⟨getOrder_hit w k j hread ht, rfl, ?_⟩
  exact getOrder_hit _ "42" (orderFromDB "42")
    (readOrderFromFile_write emptyWorld "42" ⟨"42", "John Doe", "Laptop", 2, "shipped"⟩
      (by decide)) rfl

/-- C4 witness: a stored truthy string value for key `"8"` stays served from
the store. -/
theorem claim_known_key_stable_witness :
    getOrder ⟨[(cachePath "8", "\"v\"")], [], []⟩ "8"
      = (.ok (.jstr "v"), ⟨[(cachePath "8", "\"v\"")], [], []⟩, []) :=
  (claim_known_key_stable ⟨[(cachePath "8", "\"v\"")], [], []⟩ "8" (.jstr "v") rfl rfl).1

/-- C5: if the Local Store write fails during the persist step of a cache
miss (injected write fault at that path, as a permission error), the lookup
returns an internal error to the caller, the effect trace contains no publish
for any subject (the bus is untouched by this lookup), and the files are
unchanged. -/
theorem claim_write_failure_no_publish (w : World) (k : String) (c : Option JSValue)
    (hread : readOrderFromFile w k = .ok c) (hmiss : cacheHit c = false)
    (hbad : cachePath k ∈ w.badWrites) :
    getOrder w k = (.error .ioFailure, w, [.fetchOrigin k]) ∧
    (∀ s p, Effect.publish s p ∉ (getOrder w k).2.2) ∧
    (getOrder w k).2.1.files = w.files := by
  have h := getOrder_writeFail w k c hread hmiss hbad
  refine ⟨h, ?_, by rw [h]⟩
  intro s p hmem
  rw [h] at hmem
  simp at hmem

/-- C5 witness: a node whose path for key `"9"` rejects writes. -/
theorem claim_write_failure_no_publish_witness :
    getOrder ⟨[], [], [cachePath "9"]⟩ "9"
      = (.error .ioFailure, ⟨[], [], [cachePath "9"]⟩, [.fetchOrigin "9"]) :=
  (claim_write_failure_no_publish ⟨[], [], [cachePath "9"]⟩ "9" none rfl rfl
    (by decide)).1

/-- C6: over the bus delivery loop (the loop itself is modelled from §4.2 of
the spec, see `runDeliveries`: the `nats` client library, which is not part
of this repository's sources, must contain a per-message handler error),
a delivery error and a message whose payload fails to decode as JSON are both
dropped without changing the node, they do not stop the loop, and a
well-formed message on `cache.orders.Y` delivered after a malformed one on
`cache.orders.X` is still processed and written to the Local Store; delivery
sequences compose, so this applies after any earlier deliveries. -/
theorem claim_bus_error_isolation (w : World) (x y bad good edesc : String) (jv : JSValue)
    (hbad : jsonParse bad = none) (hgood : jsonParse good = some jv)
    (hw : cachePath (subjectKey ("cache.orders." ++ y)) ∉ w.badWrites) :
    runDeliveries w [.msg ("cache.orders." ++ x) bad] = w ∧
    runDeliveries w [.err edesc] = w ∧
    (runDeliveries w [.msg ("cache.orders." ++ x) bad,
        .msg ("cache.orders." ++ y) good]).files.lookup
          (cachePath (subjectKey ("cache.orders." ++ y)))
      = some (String.mk (stringify2 0 jv)) ∧
    (∀ ds1 ds2, runDeliveries w (ds1 ++ ds2) = runDeliveries (runDeliveries w ds1) ds2) := by
  have hdrop : runDeliveries w [.msg ("cache.orders." ++ x) bad] = w := by
    simp [runDeliveries, natsCallback, onMessage, hbad]
  refine ⟨hdrop, rfl, ?_, runDeliveries_append w⟩
  simp only [runDeliveries, natsCallback, onMessage, hbad, hgood]
  simp [writeOrderToFile, hw, lookup_putFile_self]

/-- C6 witness: a malformed payload `"{"` on `cache.orders.a`, then a
well-formed `"7"` on `cache.orders.b`, on an empty node. -/
theorem claim_bus_error_isolation_witness :
    runDeliveries emptyWorld [.msg ("cache.orders." ++ "a") "\x7b"] = emptyWorld ∧
    (runDeliveries emptyWorld [.msg ("cache.orders." ++ "a") "\x7b",
        .msg ("cache.orders." ++ "b") "7"]).files.lookup
          (cachePath (subjectKey ("cache.orders." ++ "b")))
      = some (String.mk (stringify2 0 (.jnum 7))) := by
  obtain ⟨h1, _, h3, _⟩ :=
    claim_bus_error_isolation emptyWorld "a" "b" "\x7b" "7" "oops" (.jnum 7) rfl rfl (by decide)
  exact ⟨h1, h3⟩

/-- C7: `readOrderFromFile K` returns absent (`null`) exactly when no entry
file exists for `K` (with reads healthy at that path); and when an entry file
does exist, a decode failure or an injected I/O read failure is surfaced to
the caller as a thrown error — it is never treated as a cache miss, and the
lookup ends with that error without invoking the Origin Fetcher (empty effect
trace). -/
theorem claim_read_error_not_miss (w : World) (k : String) :
    (cachePath k ∉ w.badReads →
      (readOrderFromFile w k = .ok none ↔ w.files.lookup (cachePath k) = none)) ∧
    (∀ contents, w.files.lookup (cachePath k) = some contents →
      jsonParse contents = none → cachePath k ∉ w.badReads →
        readOrderFromFile w k = .error .syntaxError ∧
        getOrder w k = (.error .syntaxError, w, [])) ∧
    (∀ contents, w.files.lookup (cachePath k) = some contents →
      cachePath k ∈ w.badReads →
        readOrderFromFile w k = .error .ioFailure ∧
        getOrder w k = (.error .ioFailure, w, [])) := by
  refine ⟨?_, ?_, ?_⟩
  · intro hr
    rcases hl : w.files.lookup (cachePath k) with _ | contents
    · simp [readOrderFromFile, hl]
    · rcases hj : jsonParse contents with _ | j
      · simp [readOrderFromFile, hl, hr, hj]
      · simp [readOrderFromFile, hl, hr, hj]
  · intro contents hl hj hr
    have hread : readOrderFromFile w k = .error .syntaxError := by
      simp only [readOrderFromFile, hl, if_neg hr, hj]
    exact ⟨hread, getOrder_readError w k .syntaxError hread⟩
  · intro contents hl hr
    have hread : readOrderFromFile w k = .error .ioFailure := by
      simp only [readOrderFromFile, hl, if_pos hr]
    exact ⟨hread, getOrder_readError w k .ioFailure hread⟩

/-- C7 witness: on a node holding an undecodable entry for `"3"` and nothing
for `"9"`, the decode failure surfaces as an error with no fetch, and the
missing entry reads as absent. -/
theorem claim_read_error_not_miss_witness :
    (readOrderFromFile ⟨[(cachePath "3", "zzz")], [], []⟩ "3" = .error .syntaxError ∧
      getOrder ⟨[(cachePath "3", "zzz")], [], []⟩ "3"
        = (.error .syntaxError, ⟨[(cachePath "3", "zzz")], [], []⟩, [])) ∧
    (readOrderFromFile ⟨[(cachePath "3", "zzz")], [], []⟩ "9" = .ok none ↔
      (⟨[(cachePath "3", "zzz")], [], []⟩ : World).files.lookup (cachePath "9") = none) :=
  ⟨(claim_read_error_not_miss ⟨[(cachePath "3", "zzz")], [], []⟩ "3").2.1 "zzz" rfl rfl
      (by decide),
   (claim_read_error_not_miss ⟨[(cachePath "3", "zzz")], [], []⟩ "9").1 (by decide)⟩

/-- C8 counterexample: a publication under the dotted key `"a.b"` (subject
`cache.orders.a.b`).  The handler extracts only `"a"` from the subject, so no
entry for `"a.b"` appears in the store and the subsequent `getOrder "a.b"` is
a miss that invokes the Origin Fetcher (non-empty effect trace). -/
theorem claim_bus_propagation_cex :
    subjectKey ("cache.orders." ++ "a.b") = "a" ∧
    (runDeliveries emptyWorld
        [.msg ("cache.orders." ++ "a.b")
          (String.mk (stringify0 (orderFromDB "a.b")))]).files.lookup (cachePath "a.b")
      = none ∧
    (getOrder (runDeliveries emptyWorld
        [.msg ("cache.orders." ++ "a.b")
          (String.mk (stringify0 (orderFromDB "a.b")))]) "a.b").2.2 ≠ [] := by
  refine ⟨rfl, rfl, by decide⟩

/-- C8 (amended): for every key `K` containing no `'.'` (a dotted key is
stored under its first segment only, see the counterexample) and every entity
`E`, when the subscription handler receives a well-formed message on
`cache.orders.K` whose payload decodes to `E`, it extracts `K` from the topic
string and writes `E` into the Local Store, so a subsequent `get(K)` on the
subscribed node returns `E` and `getOrder K` serves it without invoking the
Origin Fetcher (stated with the file system healthy at that path). -/
theorem claim_bus_propagation (w : World) (k : String) (e : OrderEnt) (payload : String)
    (hk : ¬('.' ∈ k.data)) (hp : jsonParse payload = some e.toJS)
    (hw : cachePath k ∉ w.badWrites) (hr : cachePath k ∉ w.badReads) :
    ∃ w2, natsCallback w (.msg ("cache.orders." ++ k) payload) = .ok w2 ∧
      readOrderFromFile w2 k = .ok (some e.toJS) ∧
      getOrder w2 k = (.ok e.toJS, w2, []) := by
  have hkey := subjectKey_dotfree k hk
  have hcb : natsCallback w (.msg ("cache.orders." ++ k) payload)
      = .ok { w with
          files := putFile w.files (cachePath k) (String.mk (stringify2 0 e.toJS)) } := by
    simp only [natsCallback, onMessage, hp, hkey, writeOrderToFile, if_neg hw]
  exact ⟨_, hcb, readOrderFromFile_write w k e hr,
    getOrder_hit _ k e.toJS (readOrderFromFile_write w k e hr) rfl⟩

/-- C8 witness: the entity `⟨"7", "A", "B", 5, "C"⟩` delivered compactly
encoded on `cache.orders.7` to an empty node. -/
theorem claim_bus_propagation_witness :
    ∃ w2, natsCallback emptyWorld (.msg ("cache.orders." ++ "7")
        (String.mk (stringify0 (OrderEnt.mk "7" "A" "B" 5 "C").toJS))) = .ok w2 ∧
      readOrderFromFile w2 "7" = .ok (some (OrderEnt.mk "7" "A" "B" 5 "C").toJS) ∧
      getOrder w2 "7" = (.ok (OrderEnt.mk "7" "A" "B" 5 "C").toJS, w2, []) :=
  claim_bus_propagation emptyWorld "7" ⟨"7", "A", "B", 5, "C"⟩ _ (by decide) rfl
    (by decide) (by decide)

/-- C9: the subscription handler stores a well-formed message under exactly
the third dot-separated segment of the subject — for subject
`cache.orders.<key>` that is the part of `<key>` before its first dot
(`headSeg`) — so the stored key equals the published key exactly when the
key contains no `'.'`, and a key of the form `a ++ "." ++ b` with dot-free
`a` is stored under `a` alone. -/
theorem claim_subject_key_split (k : String) (w : World) (payload : String) (j : JSValue)
    (hp : jsonParse payload = some j) :
    natsCallback w (.msg ("cache.orders." ++ k) payload)
        = writeOrderToFile w (String.mk (headSeg k.data)) j ∧
    (String.mk (headSeg k.data) = k ↔ ¬('.' ∈ k.data)) ∧
    (∀ a b, k.data = a ++ '.' :: b → (∀ c ∈ a, ¬(c = '.')) →
      String.mk (headSeg k.data) = String.mk a) := by
  refine ⟨?_, ?_, ?_⟩
  · simp only [natsCallback, onMessage, hp, subjectKey_eq_headSeg]
  · constructor
    · intro h hdot
      have hdata : headSeg k.data = k.data := congrArg String.data h
      exact (headSeg_eq_self_iff k.data).mp hdata '.' hdot rfl
    · intro h
      exact .trans
        (congrArg String.mk
          ((headSeg_eq_self_iff k.data).mpr fun c hc hcd => h (hcd ▸ hc))) rfl
  · intro a b hk ha
    rw [hk, headSeg_prefix a ha b]

/-- C9 witness: the dotted key `"a.b"` with payload `"7"`. -/
theorem claim_subject_key_split_witness :
    natsCallback emptyWorld (.msg ("cache.orders." ++ "a.b") "7")
        = writeOrderToFile emptyWorld (String.mk (headSeg "a.b".data)) (.jnum 7) ∧
    (String.mk (headSeg "a.b".data) = "a.b" ↔ ¬('.' ∈ "a.b".data)) ∧
    (∀ a b, "a.b".data = a ++ '.' :: b → (∀ c ∈ a, ¬(c = '.')) →
      String.mk (headSeg "a.b".data) = String.mk a) :=
  claim_subject_key_split "a.b" emptyWorld "7" (.jnum 7) rfl

/-- C10: a stored entry whose contents decode to a falsy JSON value (`null`,
`false`, `0` or `""`) is treated by `getOrder` as a cache miss: the read does
return the stored value, but the truthiness test rejects it, so the lookup
invokes the Origin Fetcher, overwrites the entry with the fetched entity and
publishes it, instead of returning the stored value. -/
theorem claim_falsy_is_miss (w : World) (k : String) (contents : String) (j : JSValue)
    (hl : w.files.lookup (cachePath k) = some contents)
    (hj : jsonParse contents = some j) (hf : truthy j = false)
    (hr : cachePath k ∉ w.badReads) (hw : cachePath k ∉ w.badWrites) :
    readOrderFromFile w k = .ok (some j) ∧
    getOrder w k = (.ok (orderFromDB k),
      { w with
          files := putFile w.files (cachePath k) (String.mk (stringify2 0 (orderFromDB k))) },
      [.fetchOrigin k, .writeFile k,
       .publish ("cache.orders." ++ k) (String.mk (stringify0 (orderFromDB k)))]) ∧
    (getOrder w k).2.1.files.lookup (cachePath k)
      = some (String.mk (stringify2 0 (orderFromDB k))) := by
  have hread : readOrderFromFile w k = .ok (some j) := by
    simp only [readOrderFromFile, hl, if_neg hr, hj]
  have hmiss : cacheHit (some j) = false := by simp [cacheHit, hf]
  have h := getOrder_miss w k (some j) hread hmiss hw
  refine ⟨hread, h, ?_⟩
  rw [h]
  exact lookup_putFile_self _ _ _

/-- C10 witness: the JSON literal `null` stored for key `"7"` is re-fetched,
overwritten and published. -/
theorem claim_falsy_is_miss_witness :
    readOrderFromFile ⟨[(cachePath "7", "null")], [], []⟩ "7" = .ok (some .jnull) ∧
    getOrder ⟨[(cachePath "7", "null")], [], []⟩ "7" = (.ok (orderFromDB "7"),
      { (⟨[(cachePath "7", "null")], [], []⟩ : World) with
          files := putFile [(cachePath "7", "null")] (cachePath "7")
            (String.mk (stringify2 0 (orderFromDB "7"))) },
      [.fetchOrigin "7", .writeFile "7",
       .publish ("cache.orders." ++ "7") (String.mk (stringify0 (orderFromDB "7")))]) ∧
    (getOrder ⟨[(cachePath "7", "null")], [], []⟩ "7").2.1.files.lookup (cachePath "7")
      = some (String.mk (stringify2 0 (orderFromDB "7"))) :=
  claim_falsy_is_miss ⟨[(cachePath "7", "null")], [], []⟩ "7" "null" .jnull rfl rfl rfl
    (by decide) (by decide)
